import Mathlib

/- Formal verification of the pure core of the rust-vscode-workspace-configurator
   tool (src/main.rs).  Rust strings are modelled as lists of characters,
   file-system paths as lists of path components, and the scanned directory
   tree as an inductive tree.  Effectful parts (directory walk, metadata
   queries, file I/O) are modelled by explicit inputs: the directory tree,
   a metadata oracle, and the parse outcome of the pre-existing workspace
   document. -/

namespace WorkspaceConfigurator

/-- Rust string slices are modelled as lists of characters. -/
abbrev Str := List Char

/-- File-system paths are modelled as lists of path components. -/
abbrev FsPath := List Str

/-- Model of Rust `str::split("::")` as used in `generate_launch_config`:
splits at every non-overlapping occurrence of the two-character separator
`::`, scanning left to right. -/
def splitCC : Str → List Str
  | [] => [[]]
  | [c] => [[c]]
  | c :: d :: rest =>
    if c = ':' ∧ d = ':' then [] :: splitCC rest
    else
      match splitCC (d :: rest) with
      | [] => [[c]]
      | g :: gs => (c :: g) :: gs

/-- Model of Rust `str::strip_suffix`: `some` of the remaining front part
when `suffix` is a suffix of `s`, otherwise `none`. -/
def strip_suffix (s suffix : Str) : Option Str :=
  if suffix.isSuffixOf s then some (s.take (s.length - suffix.length)) else none

/-- Model of `pathdiff::diff_paths(path, base)`.  In this program every
discovered project path extends the scan root, so only the prefix case of
the external crate is exercised; inputs where `base` is not a prefix of
`path` are mapped to `none` (which the callers turn into their fallback
branch). -/
def diff_paths (path base : FsPath) : Option FsPath :=
  if base.isPrefixOf path then some (path.drop base.length) else none

/-- `Path::display` with Unix separators: components joined by `/`. -/
def render (p : FsPath) : Str := List.intercalate ("/".toList) p

/-- src/main.rs `RunnableType`. -/
inductive RunnableType where
  | Binary : RunnableType
  | Example : RunnableType
deriving DecidableEq

/-- src/main.rs `Runnable`. -/
structure Runnable where
  name : Str
  package : Str
  runnable_type : RunnableType
  required_features : List Str
  project_path : FsPath
deriving DecidableEq

/-- src/main.rs `EnvVars`. -/
structure EnvVars where
  bevy_asset_root : Str
deriving DecidableEq

/-- src/main.rs `CargoConfig`. -/
structure CargoConfig where
  args : List Str
deriving DecidableEq

/-- src/main.rs `Configuration`. -/
structure Configuration where
  name : Str
  config_type : Str
  request : Str
  cwd : Str
  env : EnvVars
  cargo : CargoConfig
  args : List Str
deriving DecidableEq

/-- src/main.rs `LaunchConfig`. -/
structure LaunchConfig where
  version : Str
  configurations : List Configuration
deriving DecidableEq

/-- src/main.rs `WorkspaceLaunchConfig`. -/
structure WorkspaceLaunchConfig where
  version : Str
  configurations : List Configuration
deriving DecidableEq

/-- The loop body of `generate_launch_config` (src/main.rs lines 302-385):
the launch configuration generated for one runnable. -/
def mkConfiguration (runnable : Runnable) (root_dir : FsPath) : Configuration :=
  let relative_path := (diff_paths runnable.project_path root_dir).getD runnable.project_path
  let cwd :=
    if relative_path = ([] : FsPath) ∨ relative_path = [".".toList] then
      "${workspaceFolder}".toList
    else
      "${workspaceFolder}/".toList ++ render relative_path
  match runnable.runnable_type with
  | RunnableType.Binary =>
    let binary_name := (splitCC runnable.name).getLastD runnable.name
    { name := "Debug binary '".toList ++ runnable.name ++ "'".toList
      config_type := "lldb".toList
      request := "launch".toList
      cwd := cwd
      env := { bevy_asset_root := cwd }
      cargo :=
        { args :=
            (if binary_name = "main".toList ∨ binary_name = runnable.package then
              ["run".toList, "--package=".toList ++ runnable.package]
            else
              ["run".toList, "--bin=".toList ++ binary_name,
               "--package=".toList ++ runnable.package])
            ++ (if runnable.required_features = [] then []
                else ["--features=".toList ++
                      List.intercalate (",".toList) runnable.required_features]) }
      args := [] }
  | RunnableType.Example =>
    let example_name :=
      (((splitCC runnable.name)[1]?).bind
        (fun s => strip_suffix s (" (example)".toList))).getD runnable.name
    { name := "Debug example '".toList ++ runnable.name ++ "'".toList
      config_type := "lldb".toList
      request := "launch".toList
      cwd := cwd
      env := { bevy_asset_root := cwd }
      cargo :=
        { args :=
            ["run".toList, "--example=".toList ++ example_name,
             "--package=".toList ++ runnable.package]
            ++ (if runnable.required_features = [] then []
                else ["--features=".toList ++
                      List.intercalate (",".toList) runnable.required_features]) }
      args := [] }

/-- src/main.rs `generate_launch_config`. -/
def generate_launch_config (runnables : List Runnable) (root_dir : FsPath) : LaunchConfig :=
  { version := "0.2.0".toList
    configurations := runnables.map (fun r => mkConfiguration r root_dir) }

/-- src/main.rs `generate_workspace_launch_config`. -/
def generate_workspace_launch_config (runnables : List Runnable) (root_dir : FsPath) :
    WorkspaceLaunchConfig :=
  { version := "0.2.0".toList
    configurations := (generate_launch_config runnables root_dir).configurations }

/-- Model of `serde_json::Value` (numbers abstracted to integers; the tool
only passes these values through and tests them for null / empty object). -/
inductive Json where
  | null : Json
  | bool (b : Bool) : Json
  | num (n : Int) : Json
  | str (s : Str) : Json
  | arr (elems : List Json) : Json
  | obj (fields : List (Str × Json)) : Json

/-- `serde_json::Value::is_null`. -/
def Json.isNull : Json → Bool
  | Json.null => true
  | _ => false

/-- `is_object() && as_object().unwrap().is_empty()` (src/main.rs line 504). -/
def Json.isEmptyObj : Json → Bool
  | Json.obj fields => fields.isEmpty
  | _ => false

/-- src/main.rs `WorkspaceFolder`. -/
structure WorkspaceFolder where
  path : Str
deriving DecidableEq

/-- src/main.rs `WorkspaceFile`. -/
structure WorkspaceFile where
  folders : List WorkspaceFolder
  name : Option Str
  settings : Option Json
  launch : Option WorkspaceLaunchConfig
  tasks : Option Json
  extensions : Option Json

/-- Decimal rendering of a count (Rust `format!("{}", n)`). -/
def natStr (n : Nat) : Str := (Nat.repr n).toList

/-- The common tail of src/main.rs `generate_workspace_name` (lines 286-296). -/
def generate_workspace_name_fallback (root_dir : FsPath) (project_paths : List FsPath) : Str :=
  let root_name := root_dir.getLast?.getD ("Rust Projects".toList)
  if project_paths.length > 1 then
    root_name ++ " (".toList ++ natStr project_paths.length ++ " Rust Projects)".toList
  else
    root_name ++ " (Rust)".toList

/-- src/main.rs `generate_workspace_name`. -/
def generate_workspace_name (root_dir : FsPath) (project_paths : List FsPath) : Str :=
  match project_paths with
  | [p] =>
    match p.getLast? with
    | some project_name => project_name ++ " (Rust)".toList
    | none => generate_workspace_name_fallback root_dir project_paths
  | _ => generate_workspace_name_fallback root_dir project_paths

/-- Rust `Vec::sort` on `PathBuf`s: sort by the lexicographic component
order (stable; stability is irrelevant on a total order). -/
def sortPaths (ps : List FsPath) : List FsPath :=
  List.insertionSort (· ≤ ·) ps

/-- Rust `Vec::dedup`: removes consecutive duplicate elements. -/
def dedupRust {α : Type} [DecidableEq α] : List α → List α
  | [] => []
  | [a] => [a]
  | a :: b :: rest => if a = b then dedupRust (b :: rest) else a :: dedupRust (b :: rest)

/-- Folder entry computed for one project path (src/main.rs lines 477-486). -/
def relFolder (root_dir : FsPath) (project_path : FsPath) : Str :=
  match diff_paths project_path root_dir with
  | some path =>
    if path ≠ ([] : FsPath) ∧ path ≠ [".".toList] then "./".toList ++ render path
    else ".".toList
  | none => ".".toList

/-- The sorted, deduplicated project-path list computed by
`write_workspace_launch_config` (src/main.rs lines 465-469). -/
def discoveredFolderPaths (runnables : List Runnable) : List FsPath :=
  dedupRust (sortPaths (runnables.map (fun r => r.project_path)))

/-- The pure core of src/main.rs `write_workspace_launch_config` (lines
464-515): the document written back, as a function of the loaded (or fresh)
starting document.  The file-system steps around it (backup copy, read and
JSON parse) are modelled by `DiskState` and `loadWorkspace` below. -/
def write_workspace_launch_config (workspace_file : WorkspaceFile)
    (launch_config : WorkspaceLaunchConfig) (runnables : List Runnable)
    (root_dir : FsPath) : WorkspaceFile :=
  let project_paths := discoveredFolderPaths runnables
  let workspace_name := generate_workspace_name root_dir project_paths
  let folders0 := project_paths.map
    (fun p => ({ path := relFolder root_dir p } : WorkspaceFolder))
  let folders :=
    if folders0.isEmpty then [({ path := ".".toList } : WorkspaceFolder)] else folders0
  { workspace_file with
    name := some workspace_name
    folders := folders
    settings :=
      if (workspace_file.settings.map Json.isNull).getD false then none
      else workspace_file.settings
    tasks :=
      if (workspace_file.tasks.map Json.isNull).getD false then none
      else workspace_file.tasks
    extensions :=
      if (workspace_file.extensions.map (fun e => e.isNull || e.isEmptyObj)).getD false
      then none
      else workspace_file.extensions
    launch := some launch_config }

/-- Parse outcome for the pre-existing workspace document: absent file,
present but unparsable file, or present and parsed document. -/
inductive DiskState where
  | absent : DiskState
  | invalid : DiskState
  | parsed (wf : WorkspaceFile) : DiskState

/-- The fresh document used when no file exists or parsing fails
(src/main.rs lines 442-449 and 453-461). -/
def emptyWorkspaceFile : WorkspaceFile :=
  { folders := [], name := none, settings := none, launch := none,
    tasks := none, extensions := none }

/-- The document `write_workspace_launch_config` starts from (lines 415-462). -/
def loadWorkspace : DiskState → WorkspaceFile
  | DiskState.absent => emptyWorkspaceFile
  | DiskState.invalid => emptyWorkspaceFile
  | DiskState.parsed wf => wf

/- The scanned directory tree: each directory carries a flag recording
whether it directly contains a Cargo.toml manifest, and its named
subdirectories.  Plain files other than the manifest are irrelevant to the
walk and omitted. -/
mutual
inductive FsTree where
  | node (manifest : Bool) (children : FsForest) : FsTree
inductive FsForest where
  | nil : FsForest
  | cons (name : Str) (tree : FsTree) (rest : FsForest) : FsForest
end

deriving instance DecidableEq for FsTree, FsForest

/-- Whether the directory directly contains a Cargo.toml. -/
def FsTree.manifest : FsTree → Bool
  | FsTree.node m _ => m

/-- Directory names skipped by the walk (src/main.rs lines 265-268). -/
def skipName (name : Str) : Bool :=
  (match name with
   | c :: _ => c = '.'
   | [] => false)
  || name == "target".toList || name == "node_modules".toList

mutual
/-- src/main.rs `find_rust_projects_recursive`: record a directory holding a
manifest and do not descend into it, otherwise recurse into the
non-skipped subdirectories. -/
def find_rust_projects_recursive (dir : FsPath) : FsTree → List FsPath
  | FsTree.node true _ => [dir]
  | FsTree.node false children => findInForest dir children
/-- The `read_dir` loop of `find_rust_projects_recursive`. -/
def findInForest (dir : FsPath) : FsForest → List FsPath
  | FsForest.nil => []
  | FsForest.cons name tree rest =>
    (if skipName name then [] else find_rust_projects_recursive (dir ++ [name]) tree)
      ++ findInForest dir rest
end

mutual
/-- Instrumentation of the walk: the root-relative paths of every directory
on which `find_rust_projects_recursive` is invoked (the directories the
walk visits). -/
def visitedRel : FsTree → List FsPath
  | FsTree.node true _ => [[]]
  | FsTree.node false children => [] :: visitedForest children
/-- Instrumentation of the `read_dir` loop. -/
def visitedForest : FsForest → List FsPath
  | FsForest.nil => []
  | FsForest.cons name tree rest =>
    (if skipName name then [] else (visitedRel tree).map (fun q => name :: q))
      ++ visitedForest rest
end

/-- Lookup of a child directory by name. -/
def lookupForest : FsForest → Str → Option FsTree
  | FsForest.nil, _ => none
  | FsForest.cons name tree rest, n =>
    if name = n then some tree else lookupForest rest n

/-- The subdirectory of a tree at a root-relative path. -/
def subtreeAt : FsTree → FsPath → Option FsTree
  | tree, [] => some tree
  | FsTree.node _ children, n :: rest =>
    match lookupForest children n with
    | some tree => subtreeAt tree rest
    | none => none

/-- `subtreeAt` through a forest of siblings. -/
def subtreeForestAt (children : FsForest) : FsPath → Option FsTree
  | [] => none
  | n :: rest =>
    match lookupForest children n with
    | some tree => subtreeAt tree rest
    | none => none

/-- Whether a forest has an entry with the given name. -/
def forestHasName : FsForest → Str → Bool
  | FsForest.nil, _ => false
  | FsForest.cons name _ rest, n => name == n || forestHasName rest n

mutual
/-- Well-formed directory trees: sibling names are distinct (always true on
a real file system, where `read_dir` cannot yield duplicate entries). -/
def wfTree : FsTree → Bool
  | FsTree.node _ children => wfForest children
/-- Well-formedness of a forest of siblings. -/
def wfForest : FsForest → Bool
  | FsForest.nil => true
  | FsForest.cons name tree rest =>
    !forestHasName rest name && wfTree tree && wfForest rest
end

/-- cargo-metadata target kinds (only the kinds the tool inspects are
distinguished). -/
inductive TargetKind where
  | Bin : TargetKind
  | Example : TargetKind
  | Other : TargetKind
deriving DecidableEq

/-- A cargo-metadata target. -/
structure MetaTarget where
  name : Str
  kind : List TargetKind
  required_features : List Str
deriving DecidableEq

/-- A cargo-metadata package. -/
structure MetaPackage where
  name : Str
  manifest_path : FsPath
  targets : List MetaTarget
deriving DecidableEq

/-- A cargo-metadata query result. -/
structure Metadata where
  workspace_members : List Str
  packages : List MetaPackage
deriving DecidableEq

/-- Package selection of `discover_runnables` (src/main.rs lines 175-207):
for a single-package project, the package whose manifest path matches the
project's manifest; for a workspace, every package whose manifest directory
lies under the project path.  Paths in the model are already canonical, so
`canonicalize` is the identity.  An empty result models the warn-and-skip
branches. -/
def packages_to_process (metadata : Metadata) (project_path : FsPath) : List MetaPackage :=
  let manifest_path := project_path ++ ["Cargo.toml".toList]
  if metadata.workspace_members.isEmpty then
    match metadata.packages.find? (fun p => p.manifest_path == manifest_path) with
    | some package => [package]
    | none => []
  else
    metadata.packages.filter (fun p => project_path.isPrefixOf p.manifest_path.dropLast)

/-- Display name for a binary runnable (src/main.rs line 215). -/
def binaryDisplayName (package target : Str) : Str :=
  package ++ "::".toList ++ target

/-- Display name for an example runnable (src/main.rs line 226). -/
def exampleDisplayName (package target : Str) : Str :=
  package ++ "::".toList ++ target ++ " (example)".toList

/-- Runnables emitted for one package (src/main.rs lines 210-234). -/
def runnables_of_package (package : MetaPackage) (project_path : FsPath) : List Runnable :=
  package.targets.flatMap (fun target =>
    (if target.kind.contains TargetKind.Bin then
      [{ name := binaryDisplayName package.name target.name
         package := package.name
         runnable_type := RunnableType.Binary
         required_features := target.required_features
         project_path := project_path }]
    else [])
    ++ (if target.kind.contains TargetKind.Example then
      [{ name := exampleDisplayName package.name target.name
         package := package.name
         runnable_type := RunnableType.Example
         required_features := target.required_features
         project_path := project_path }]
    else []))

/-- The no-projects error message (src/main.rs line 146). -/
def noProjectsMsg (root_dir : FsPath) : Str :=
  "No Rust projects (Cargo.toml files) found in ".toList ++ render root_dir

/-- Project discovery inside `discover_runnables` (src/main.rs lines
137-148): the root itself when it holds a manifest, otherwise the recursive
walk, failing when the walk finds nothing. -/
def discoverProjects (root_dir : FsPath) (tree : FsTree) : Except Str (List FsPath) :=
  if tree.manifest then Except.ok [root_dir]
  else
    let found := find_rust_projects_recursive root_dir tree
    if found.isEmpty then Except.error (noProjectsMsg root_dir)
    else Except.ok found

/-- src/main.rs `discover_runnables`, given the directory tree and a
metadata oracle (`none` models a failed metadata query, which the code
reports as a warning and skips). -/
def discover_runnables (root_dir : FsPath) (tree : FsTree)
    (metaOf : FsPath → Option Metadata) : Except Str (List Runnable) :=
  match discoverProjects root_dir tree with
  | Except.error e => Except.error e
  | Except.ok found_projects =>
    Except.ok (found_projects.flatMap (fun project_path =>
      match metaOf project_path with
      | none => []
      | some metadata =>
        (packages_to_process metadata project_path).flatMap
          (fun package => runnables_of_package package project_path)))

/-- The pipeline of src/main.rs `main` together with the file-system shell
of `write_workspace_launch_config`, as a function from the run's inputs to
its outcome: `Except.error` models an aborted run (the abort happens before
any file-system write); otherwise the result carries the written workspace
document (`none` when the runnable list is empty and `main` returns without
touching the file system) and whether a backup copy of a pre-existing
workspace file was made. -/
def mainModel (root_dir : FsPath) (tree : FsTree) (metaOf : FsPath → Option Metadata)
    (disk : DiskState) : Except Str (Option WorkspaceFile × Bool) :=
  match discover_runnables root_dir tree metaOf with
  | Except.error e => Except.error e
  | Except.ok runnables =>
    if runnables.isEmpty then Except.ok (none, false)
    else
      let launch_config := generate_workspace_launch_config runnables root_dir
      Except.ok
        (some (write_workspace_launch_config (loadWorkspace disk) launch_config
          runnables root_dir),
         match disk with
         | DiskState.absent => false
         | _ => true)

/- Concrete sample inputs used by witness and counterexample theorems. -/

/-- An empty launch section. -/
def launch0 : WorkspaceLaunchConfig := { version := "0.2.0".toList, configurations := [] }

/-- A tree with two sibling project roots `a` and `b`. -/
def dupTree : FsTree :=
  FsTree.node false
    (FsForest.cons ("a".toList) (FsTree.node true FsForest.nil)
      (FsForest.cons ("b".toList) (FsTree.node true FsForest.nil) FsForest.nil))

/-- A metadata oracle reporting, for every queried project, a single package
named `demo` with one binary target named `demo` (as happens when the same
crate is checked out under two different directories). -/
def dupMeta : FsPath → Option Metadata :=
  fun project_path =>
    some { workspace_members := []
           packages := [{ name := "demo".toList
                          manifest_path := project_path ++ ["Cargo.toml".toList]
                          targets := [{ name := "demo".toList
                                        kind := [TargetKind.Bin]
                                        required_features := [] }] }] }

/-- The runnables `discover_runnables` produces on `dupTree` with `dupMeta`. -/
def dupRunnables : List Runnable :=
  [{ name := "demo::demo".toList, package := "demo".toList
     runnable_type := RunnableType.Binary, required_features := []
     project_path := ["a".toList] },
   { name := "demo::demo".toList, package := "demo".toList
     runnable_type := RunnableType.Binary, required_features := []
     project_path := ["b".toList] }]

/-- The single runnable produced when the scan root itself is the project. -/
def rootRunnable : Runnable :=
  { name := "demo::demo".toList, package := "demo".toList
    runnable_type := RunnableType.Binary, required_features := []
    project_path := [] }

/-- The document written by a first run on a root-level project. -/
def sampleDoc : WorkspaceFile :=
  write_workspace_launch_config emptyWorkspaceFile
    (generate_workspace_launch_config [rootRunnable] []) [rootRunnable] []

/-- A runnable whose project lives in subdirectory `alpha` of root `ws`. -/
def alphaRunnable : Runnable :=
  { name := "demo::demo".toList, package := "demo".toList
    runnable_type := RunnableType.Binary, required_features := []
    project_path := ["ws".toList, "alpha".toList] }

/-- A loaded document with hand-authored settings, tasks and extensions. -/
def wfHandAuthored : WorkspaceFile :=
  { folders := [{ path := ".".toList }], name := some ("old".toList)
    settings := some (Json.obj [("a".toList, Json.num 1)])
    launch := some launch0
    tasks := some (Json.str ("t".toList))
    extensions := some (Json.obj [("recommendations".toList, Json.arr [])]) }

/-- A loaded document whose `extensions` section is an empty object. -/
def wfWithExtensions : WorkspaceFile :=
  { folders := [], name := none, settings := some (Json.str ("user".toList))
    launch := none, tasks := none, extensions := some (Json.obj []) }

/-- A loaded document whose `settings` section is an empty object. -/
def wfEmptySettings : WorkspaceFile :=
  { folders := [], name := none, settings := some (Json.obj [])
    launch := none, tasks := none, extensions := none }

/-- A manifest-free tree with a single `src` subdirectory. -/
def noProjectTree : FsTree :=
  FsTree.node false
    (FsForest.cons ("src".toList) (FsTree.node false FsForest.nil) FsForest.nil)

/-- A tree whose subdirectory `a` is a project root that itself contains a
further manifest-bearing subdirectory `b`. -/
def nestedTree : FsTree :=
  FsTree.node false
    (FsForest.cons ("a".toList)
      (FsTree.node true
        (FsForest.cons ("b".toList) (FsTree.node true FsForest.nil) FsForest.nil))
      FsForest.nil)

theorem splitCC_no_colon (s : Str) (h : ':' ∉ s) : splitCC s = [s] := by
  induction s using splitCC.induct with
  | case1 => simp [splitCC]
  | case2 c => simp [splitCC]
  | case3 c d rest hcd ih =>
    exact absurd (hcd.1 ▸ List.mem_cons_self c (d :: rest)) h
  | case4 c d rest hcd hnil ih =>
    have hd : ':' ∉ d :: rest := fun hm => h (List.mem_cons_of_mem c hm)
    rw [ih hd] at hnil
    exact absurd hnil (by simp)
  | case5 c d rest hcd g gs hsplit ih =>
    have hd : ':' ∉ d :: rest := fun hm => h (List.mem_cons_of_mem c hm)
    simp [splitCC, hcd, ih hd]

theorem splitCC_sep (p rest : Str) (hp : ':' ∉ p) :
    splitCC (p ++ ':' :: ':' :: rest) = p :: splitCC rest := by
  induction p with
  | nil => simp [splitCC]
  | cons c p' ih =>
    have hcc : c ≠ ':' := fun hx => hp (by simp [hx])
    match p' with
    | [] =>
      have h1 : splitCC (':' :: ':' :: rest) = [] :: splitCC rest := by
        simp [splitCC]
      simp [splitCC, hcc, h1]
    | c₂ :: p'' =>
      have hp' : ':' ∉ c₂ :: p'' := fun hm => hp (List.mem_cons_of_mem c hm)
      have ih' := ih hp'
      simp only [List.cons_append] at ih' ⊢
      simp [splitCC, hcc, ih']

theorem strip_suffix_append (t suffix : Str) :
    strip_suffix (t ++ suffix) suffix = some t := by
  have hsuf : suffix.isSuffixOf (t ++ suffix) = true :=
    List.isSuffixOf_iff_suffix.mpr (List.suffix_append t suffix)
  have hlen : (t ++ suffix).length - suffix.length = t.length := by
    simp [List.length_append]
  simp [strip_suffix, hsuf, hlen, List.take_left' rfl]

theorem splitCC_binary_pair (p t : Str) (hp : ':' ∉ p) (ht : ':' ∉ t) :
    splitCC (p ++ "::".toList ++ t) = [p, t] := by
  have h1 : p ++ "::".toList ++ t = p ++ ':' :: ':' :: t := by
    simp
  rw [h1, splitCC_sep p t hp, splitCC_no_colon t ht]

/-- C1: for every runnable built by the discovery stage (whose display name
is `package ++ "::" ++ target`, optionally suffixed `" (example)"`, with
`::`-free package and target names), the generated build-invocation argument
list is: for a binary whose bare target name equals `"main"` or equals the
package name, exactly `["run", "--package=<pkg>"]`; for any other binary,
exactly `["run", "--bin=<name>", "--package=<pkg>"]`; for an example,
exactly `["run", "--example=<name>", "--package=<pkg>"]`; and when the
required feature flags are non-empty, exactly one additional final element
`"--features=<comma-joined flags>"` is appended. -/
theorem c1_build_invocation_args (p t : Str) (feats : List Str) (proj root_dir : FsPath)
    (hp : ':' ∉ p) (ht : ':' ∉ t) :
    (mkConfiguration
      { name := p ++ "::".toList ++ t, package := p, runnable_type := RunnableType.Binary,
        required_features := feats, project_path := proj } root_dir).cargo.args
      = (if t = "main".toList ∨ t = p then
          ["run".toList, "--package=".toList ++ p]
        else
          ["run".toList, "--bin=".toList ++ t, "--package=".toList ++ p])
        ++ (if feats = [] then []
            else ["--features=".toList ++ List.intercalate (",".toList) feats])
    ∧ (mkConfiguration
      { name := p ++ "::".toList ++ t ++ " (example)".toList, package := p,
        runnable_type := RunnableType.Example,
        required_features := feats, project_path := proj } root_dir).cargo.args
      = ["run".toList, "--example=".toList ++ t, "--package=".toList ++ p]
        ++ (if feats = [] then []
            else ["--features=".toList ++ List.intercalate (",".toList) feats]) := by
  constructor
  · simp [mkConfiguration, splitCC_sep p t hp, splitCC_no_colon t ht]
  · have hex : ':' ∉ t ++ " (example)".toList := by
      intro hm
      rcases List.mem_append.mp hm with h1 | h2
      · exact ht h1
      · revert h2
        decide
    have h1 := splitCC_sep p (t ++ " (example)".toList) hp
    rw [splitCC_no_colon (t ++ " (example)".toList) hex] at h1
    simp at h1
    simp [mkConfiguration]
    rw [h1]
    simp [strip_suffix_append]

/-- Witness for C1 at package `demo`, target `server`, features `[ui]`. -/
theorem c1_build_invocation_args_witness :
    (':' ∉ "demo".toList) ∧ (':' ∉ "server".toList) ∧
    ((mkConfiguration
      { name := "demo".toList ++ "::".toList ++ "server".toList, package := "demo".toList,
        runnable_type := RunnableType.Binary,
        required_features := ["ui".toList], project_path := [] } []).cargo.args
      = (if "server".toList = "main".toList ∨ "server".toList = "demo".toList then
          ["run".toList, "--package=".toList ++ "demo".toList]
        else
          ["run".toList, "--bin=".toList ++ "server".toList,
           "--package=".toList ++ "demo".toList])
        ++ (if (["ui".toList] : List Str) = [] then []
            else ["--features=".toList ++ List.intercalate (",".toList) ["ui".toList]])
    ∧ (mkConfiguration
      { name := "demo".toList ++ "::".toList ++ "server".toList ++ " (example)".toList,
        package := "demo".toList, runnable_type := RunnableType.Example,
        required_features := ["ui".toList], project_path := [] } []).cargo.args
      = ["run".toList, "--example=".toList ++ "server".toList,
         "--package=".toList ++ "demo".toList]
        ++ (if (["ui".toList] : List Str) = [] then []
            else ["--features=".toList ++ List.intercalate (",".toList) ["ui".toList]])) :=
  ⟨by decide, by decide,
   c1_build_invocation_args "demo".toList "server".toList ["ui".toList] [] []
     (by decide) (by decide)⟩

theorem dedupRust_cons_eq {α : Type} [DecidableEq α] (b : α) (rest : List α) :
    dedupRust (b :: b :: rest) = dedupRust (b :: rest) := by
  simp [dedupRust]

theorem dedupRust_cons_ne {α : Type} [DecidableEq α] {a b : α} (h : ¬a = b) (rest : List α) :
    dedupRust (a :: b :: rest) = a :: dedupRust (b :: rest) := by
  simp [dedupRust, h]

theorem mem_dedupRust {α : Type} [DecidableEq α] (l : List α) (x : α) :
    x ∈ dedupRust l ↔ x ∈ l := by
  induction l using dedupRust.induct with
  | case1 => simp [dedupRust]
  | case2 a => simp [dedupRust]
  | case3 b rest ih =>
    rw [dedupRust_cons_eq, ih]
    simp only [List.mem_cons]
    tauto
  | case4 a b rest h ih =>
    rw [dedupRust_cons_ne h]
    simp [ih]

theorem dedupRust_sorted_lt {α : Type} [DecidableEq α] [LinearOrder α] (l : List α)
    (h : l.Sorted (· ≤ ·)) : (dedupRust l).Sorted (· < ·) := by
  induction l using dedupRust.induct with
  | case1 => simp [dedupRust]
  | case2 a => simp [dedupRust]
  | case3 b rest ih =>
    rw [dedupRust_cons_eq]
    exact ih h.of_cons
  | case4 a b rest hab ih =>
    rw [dedupRust_cons_ne hab]
    rw [List.sorted_cons]
    refine ⟨?_, ih h.of_cons⟩
    intro x hx
    have hxmem : x ∈ b :: rest := (mem_dedupRust _ x).mp hx
    have hab' : a < b :=
      lt_of_le_of_ne (List.rel_of_sorted_cons h b (List.mem_cons_self b rest)) hab
    rcases List.mem_cons.mp hxmem with rfl | hxr
    · exact hab'
    · exact hab'.trans_le (List.rel_of_sorted_cons h.of_cons x hxr)

theorem dedupRust_eq_nil {α : Type} [DecidableEq α] (l : List α) :
    dedupRust l = [] ↔ l = [] := by
  induction l using dedupRust.induct with
  | case1 => simp [dedupRust]
  | case2 a => simp [dedupRust]
  | case3 b rest ih =>
    rw [dedupRust_cons_eq]
    simp [ih]
  | case4 a b rest h ih =>
    rw [dedupRust_cons_ne h]
    simp

theorem sortPaths_sorted (ps : List FsPath) : (sortPaths ps).Sorted (· ≤ ·) :=
  List.sorted_insertionSort _ ps

theorem mem_sortPaths (ps : List FsPath) (x : FsPath) : x ∈ sortPaths ps ↔ x ∈ ps :=
  (List.perm_insertionSort _ ps).mem_iff

theorem sortPaths_eq_nil (ps : List FsPath) : sortPaths ps = [] ↔ ps = [] := by
  constructor
  · intro h
    have hp := List.perm_insertionSort ((· ≤ ·) : FsPath → FsPath → Prop) ps
    unfold sortPaths at h
    rw [h] at hp
    exact hp.symm.eq_nil
  · intro h
    subst h
    rfl

theorem discoveredFolderPaths_eq_nil (rs : List Runnable) :
    discoveredFolderPaths rs = [] ↔ rs = [] := by
  unfold discoveredFolderPaths
  rw [dedupRust_eq_nil, sortPaths_eq_nil, List.map_eq_nil_iff]

theorem mem_discoveredFolderPaths (rs : List Runnable) (p : FsPath) :
    p ∈ discoveredFolderPaths rs ↔ ∃ r ∈ rs, r.project_path = p := by
  unfold discoveredFolderPaths
  rw [mem_dedupRust, mem_sortPaths, List.mem_map]

theorem append_right_ne_self {α : Type} (l t : List α) (ht : t ≠ []) : l ++ t ≠ l := by
  intro h
  apply ht
  have hlen := congrArg List.length h
  simp at hlen
  exact hlen

/-- C6: in every written workspace document the folders list is the
deduplicated, sorted list of the discovered project-root paths expressed
relative to the target root (`"./" ++ rel`, or `"."` when the project root
equals the target root), and an empty list falls back to the single entry
`"."`.  Hypotheses: discovered project paths extend the scan root and have
no `"."` component (both guaranteed for paths produced by the walk). -/
theorem c6_folder_list_invariant (wf : WorkspaceFile) (launch_config : WorkspaceLaunchConfig)
    (runnables : List Runnable) (root_dir : FsPath)
    (hroot : ∀ r ∈ runnables, root_dir <+: r.project_path)
    (hdot : ∀ r ∈ runnables, ".".toList ∉ r.project_path) :
    (write_workspace_launch_config wf launch_config runnables root_dir).folders
      = (if runnables = [] then [({ path := ".".toList } : WorkspaceFolder)]
         else (discoveredFolderPaths runnables).map
            (fun p => ({ path := relFolder root_dir p } : WorkspaceFolder)))
    ∧ (discoveredFolderPaths runnables).Sorted (· < ·)
    ∧ (discoveredFolderPaths runnables).Nodup
    ∧ (∀ p, p ∈ discoveredFolderPaths runnables ↔ ∃ r ∈ runnables, r.project_path = p)
    ∧ (∀ p ∈ discoveredFolderPaths runnables,
        relFolder root_dir p
          = if p = root_dir then ".".toList
            else "./".toList ++ render (p.drop root_dir.length)) := by
  have hsorted : (discoveredFolderPaths runnables).Sorted (· < ·) :=
    dedupRust_sorted_lt _ (sortPaths_sorted _)
  refine ⟨?_, hsorted, hsorted.nodup, mem_discoveredFolderPaths runnables, ?_⟩
  · by_cases hrs : runnables = []
    · subst hrs
      simp [write_workspace_launch_config, discoveredFolderPaths, sortPaths, dedupRust]
    · have hne : ((discoveredFolderPaths runnables).map
          (fun p => ({ path := relFolder root_dir p } : WorkspaceFolder))).isEmpty = false := by
        rw [Bool.eq_false_iff]
        intro hcon
        rw [List.isEmpty_iff, List.map_eq_nil_iff, discoveredFolderPaths_eq_nil] at hcon
        exact hrs hcon
      simp [write_workspace_launch_config, hne, hrs]
  · intro p hp
    obtain ⟨r, hr, rfl⟩ := (mem_discoveredFolderPaths runnables p).mp hp
    obtain ⟨tail, htail⟩ := hroot r hr
    rw [← htail]
    have hpref : root_dir.isPrefixOf (root_dir ++ tail) = true :=
      List.isPrefixOf_iff_prefix.mpr ⟨tail, rfl⟩
    have hdrop : (root_dir ++ tail).drop root_dir.length = tail := List.drop_left _ _
    by_cases htaileq : tail = []
    · subst htaileq
      simp [relFolder, diff_paths, hpref]
    · have hne1 : root_dir ++ tail ≠ root_dir := append_right_ne_self root_dir tail htaileq
      have hne2 : tail ≠ [".".toList] := by
        intro hcon
        apply hdot r hr
        rw [← htail, hcon]
        simp
      simp only [relFolder, diff_paths, hpref, if_pos, hdrop, if_neg hne1]
      rw [if_pos ⟨htaileq, hne2⟩]

/-- Witness for C6 on two discovered projects `a` and `b` under the root. -/
theorem c6_folder_list_invariant_witness :
    (∀ r ∈ dupRunnables, ([] : FsPath) <+: r.project_path)
    ∧ (∀ r ∈ dupRunnables, ".".toList ∉ r.project_path)
    ∧ ((write_workspace_launch_config emptyWorkspaceFile launch0 dupRunnables []).folders
        = (if dupRunnables = [] then [({ path := ".".toList } : WorkspaceFolder)]
           else (discoveredFolderPaths dupRunnables).map
              (fun p => ({ path := relFolder [] p } : WorkspaceFolder)))
      ∧ (discoveredFolderPaths dupRunnables).Sorted (· < ·)
      ∧ (discoveredFolderPaths dupRunnables).Nodup
      ∧ (∀ p, p ∈ discoveredFolderPaths dupRunnables
          ↔ ∃ r ∈ dupRunnables, r.project_path = p)
      ∧ (∀ p ∈ discoveredFolderPaths dupRunnables,
          relFolder [] p
            = if p = ([] : FsPath) then ".".toList
              else "./".toList ++ render (p.drop ([] : FsPath).length))) :=
  ⟨by decide, by decide,
   c6_folder_list_invariant emptyWorkspaceFile launch0 dupRunnables [] (by decide) (by decide)⟩

theorem Json.isNull_iff (j : Json) : j.isNull = true ↔ j = Json.null := by
  cases j <;> simp [Json.isNull]

/-- C2 (amended): after one run the hand-authored (non-null) settings block
is preserved byte-identically and the launch section equals the freshly
generated configurations; tasks and extensions are likewise preserved,
except that a null tasks value and a null or empty-object extensions value
are dropped (the original claim's "all other fields preserved" fails on an
empty-object extensions section, see the counterexample). -/
theorem c2_merge_preserves_settings (wf : WorkspaceFile) (launch_config : WorkspaceLaunchConfig)
    (runnables : List Runnable) (root_dir : FsPath) (s : Json)
    (hs : wf.settings = some s) (hnull : s.isNull = false) :
    (write_workspace_launch_config wf launch_config runnables root_dir).settings = some s
    ∧ (write_workspace_launch_config wf launch_config runnables root_dir).launch
        = some launch_config
    ∧ (∀ j, wf.tasks = some j → j.isNull = false →
        (write_workspace_launch_config wf launch_config runnables root_dir).tasks = some j)
    ∧ (∀ j, wf.extensions = some j → j.isNull = false → j.isEmptyObj = false →
        (write_workspace_launch_config wf launch_config runnables root_dir).extensions
          = some j) := by
  refine ⟨?_, ?_, ?_, ?_⟩
  · simp [write_workspace_launch_config, hs, hnull]
  · simp [write_workspace_launch_config]
  · intro j hj hn
    simp [write_workspace_launch_config, hj, hn]
  · intro j hj hn he
    simp [write_workspace_launch_config, hj, hn, he]

/-- C2 counterexample: a document whose `extensions` section is the empty
object is not written back unchanged — the merge drops the section, so not
every field other than folders, name and launch is preserved. -/
theorem c2_counterexample :
    ¬ ((write_workspace_launch_config wfWithExtensions launch0 [] []).extensions
        = wfWithExtensions.extensions) := by
  have hx : (write_workspace_launch_config wfWithExtensions launch0 [] []).extensions
      = none := rfl
  intro h
  rw [hx] at h
  exact Option.noConfusion h

/-- Witness for C2 on a document with hand-authored sections. -/
theorem c2_merge_preserves_settings_witness :
    (wfHandAuthored.settings = some (Json.obj [("a".toList, Json.num 1)]))
    ∧ ((Json.obj [("a".toList, Json.num 1)]).isNull = false)
    ∧ (write_workspace_launch_config wfHandAuthored launch0 [rootRunnable] []).settings
        = some (Json.obj [("a".toList, Json.num 1)]) :=
  ⟨rfl, rfl,
   (c2_merge_preserves_settings wfHandAuthored launch0 [rootRunnable] []
     (Json.obj [("a".toList, Json.num 1)]) rfl rfl).1⟩

/-- C9 (amended): a null settings or tasks section is dropped, and a null or
empty-object extensions section is dropped; any other present section is
retained.  (The original claim also demanded dropping empty — e.g. empty
object — settings and tasks sections, which the code does not do, see the
counterexample.) -/
theorem c9_empty_section_normalization (wf : WorkspaceFile)
    (launch_config : WorkspaceLaunchConfig) (runnables : List Runnable) (root_dir : FsPath) :
    (wf.settings = some Json.null →
      (write_workspace_launch_config wf launch_config runnables root_dir).settings = none)
    ∧ (∀ j, wf.settings = some j → j.isNull = false →
        (write_workspace_launch_config wf launch_config runnables root_dir).settings = some j)
    ∧ (wf.tasks = some Json.null →
        (write_workspace_launch_config wf launch_config runnables root_dir).tasks = none)
    ∧ (∀ j, wf.tasks = some j → j.isNull = false →
        (write_workspace_launch_config wf launch_config runnables root_dir).tasks = some j)
    ∧ (∀ j, wf.extensions = some j → (j.isNull = true ∨ j.isEmptyObj = true) →
        (write_workspace_launch_config wf launch_config runnables root_dir).extensions = none)
    ∧ (∀ j, wf.extensions = some j → j.isNull = false → j.isEmptyObj = false →
        (write_workspace_launch_config wf launch_config runnables root_dir).extensions
          = some j) := by
  refine ⟨?_, ?_, ?_, ?_, ?_, ?_⟩
  · intro hs
    simp [write_workspace_launch_config, hs, Json.isNull]
  · intro j hj hn
    simp [write_workspace_launch_config, hj, hn]
  · intro ht
    simp [write_workspace_launch_config, ht, Json.isNull]
  · intro j hj hn
    simp [write_workspace_launch_config, hj, hn]
  · intro j hj hd
    rcases hd with hd | hd <;> simp [write_workspace_launch_config, hj, hd]
  · intro j hj hn he
    simp [write_workspace_launch_config, hj, hn, he]

/-- C9 counterexample: a present but empty (empty-object) settings section
is retained by the code, while the claim demands that it be dropped. -/
theorem c9_counterexample :
    ¬ ((write_workspace_launch_config wfEmptySettings launch0 [] []).settings = none) := by
  intro h
  simp [write_workspace_launch_config, wfEmptySettings, Json.isNull] at h

/-- Witness for C9 on a null tasks section and an empty-object extensions
section. -/
theorem c9_empty_section_normalization_witness :
    (wfWithExtensions.extensions = some (Json.obj []))
    ∧ ((Json.obj []).isNull = true ∨ (Json.obj []).isEmptyObj = true)
    ∧ (write_workspace_launch_config wfWithExtensions launch0 [] []).extensions = none :=
  ⟨rfl, Or.inr rfl,
   (c9_empty_section_normalization wfWithExtensions launch0 [] []).2.2.2.2.1
     (Json.obj []) rfl (Or.inr rfl)⟩

/-- C5 (amended): with exactly one discovered project, the workspace name is
derived from that project directory's own name (not from the target root's
name as the original claim states — see the counterexample), as
`"<project dir> (Rust)"`; with more than one project it is
`"<root name> (<N> Rust Projects)"`; and the name field is always set in
the written document (never left unset; missing directory names fall back
to the constant `"Rust Projects"`). -/
theorem c5_workspace_name (root_dir : FsPath) (project_paths : List FsPath) :
    (∀ p n, project_paths = [p] → p.getLast? = some n →
      generate_workspace_name root_dir project_paths = n ++ " (Rust)".toList)
    ∧ (∀ rn, 1 < project_paths.length → root_dir.getLast? = some rn →
        generate_workspace_name root_dir project_paths
          = rn ++ " (".toList ++ natStr project_paths.length ++ " Rust Projects)".toList)
    ∧ (∀ wf launch_config runnables,
        (write_workspace_launch_config wf launch_config runnables root_dir).name
          = some (generate_workspace_name root_dir (discoveredFolderPaths runnables))) := by
  refine ⟨?_, ?_, ?_⟩
  · intro p n h1 h2
    subst h1
    simp [generate_workspace_name, h2]
  · intro rn hlen hroot
    match project_paths, hlen with
    | a :: b :: tail2, _ =>
      have hgt : (a :: b :: tail2).length > 1 := by
        rw [List.length_cons, List.length_cons]
        omega
      simp [generate_workspace_name, generate_workspace_name_fallback, hroot, hgt]
  · intro wf launch_config runnables
    rfl

/-- C5 counterexample: one project discovered in subdirectory `alpha` of
root `ws` — the written name is `"alpha (Rust)"`, not the claimed
`"ws (Rust)"` derived from the target root's own name. -/
theorem c5_counterexample :
    (write_workspace_launch_config emptyWorkspaceFile launch0 [alphaRunnable]
        ["ws".toList]).name ≠ some ("ws".toList ++ " (Rust)".toList) := by
  decide

/-- Witness for C5: single-project and multi-project names at concrete
inputs. -/
theorem c5_workspace_name_witness :
    ((["ws".toList, "alpha".toList] : FsPath).getLast? = some ("alpha".toList))
    ∧ generate_workspace_name ["ws".toList] [["ws".toList, "alpha".toList]]
        = "alpha".toList ++ " (Rust)".toList :=
  ⟨rfl,
   (c5_workspace_name ["ws".toList] [["ws".toList, "alpha".toList]]).1
     ["ws".toList, "alpha".toList] ("alpha".toList) rfl rfl⟩

/-- C3: running the tool twice against an unchanged project tree is
idempotent — if the first run wrote a document, the second run (loading
that document) writes a document whose folders and launch sections are
identical to the first run's. -/
theorem c3_idempotent_runs (root_dir : FsPath) (tree : FsTree)
    (metaOf : FsPath → Option Metadata) (disk : DiskState)
    (d₁ : WorkspaceFile) (b : Bool)
    (h : mainModel root_dir tree metaOf disk = Except.ok (some d₁, b)) :
    ∃ d₂, mainModel root_dir tree metaOf (DiskState.parsed d₁) = Except.ok (some d₂, true)
      ∧ d₂.folders = d₁.folders ∧ d₂.launch = d₁.launch := by
  unfold mainModel at h ⊢
  cases hd : discover_runnables root_dir tree metaOf with
  | error e =>
    rw [hd] at h
    exact Except.noConfusion h
  | ok rs =>
    rw [hd] at h
    dsimp only at h ⊢
    by_cases hre : rs.isEmpty
    · rw [if_pos hre] at h
      simp at h
    · rw [if_neg hre] at h ⊢
      simp only [Except.ok.injEq, Prod.mk.injEq, Option.some.injEq] at h
      obtain ⟨hdoc, _hb⟩ := h
      subst hdoc
      exact ⟨write_workspace_launch_config
          (write_workspace_launch_config (loadWorkspace disk)
            (generate_workspace_launch_config rs root_dir) rs root_dir)
          (generate_workspace_launch_config rs root_dir) rs root_dir, rfl, rfl, rfl⟩

/-- Witness for C3 on a root-level project. -/
theorem c3_idempotent_runs_witness :
    (mainModel [] (FsTree.node true FsForest.nil) dupMeta DiskState.absent
        = Except.ok (some sampleDoc, false))
    ∧ ∃ d₂, mainModel [] (FsTree.node true FsForest.nil) dupMeta (DiskState.parsed sampleDoc)
        = Except.ok (some d₂, true)
        ∧ d₂.folders = sampleDoc.folders ∧ d₂.launch = sampleDoc.launch :=
  ⟨rfl, c3_idempotent_runs [] (FsTree.node true FsForest.nil) dupMeta DiskState.absent
    sampleDoc false rfl⟩

/-- C4: when the scan root has no manifest and the recursive walk discovers
no project root, the run fails with the no-projects-found error; in the
model an error outcome is produced before the write stage, so no workspace
file and no backup is written. -/
theorem c4_no_projects_aborts (root_dir : FsPath) (tree : FsTree)
    (metaOf : FsPath → Option Metadata) (disk : DiskState)
    (h1 : tree.manifest = false)
    (h2 : find_rust_projects_recursive root_dir tree = []) :
    mainModel root_dir tree metaOf disk = Except.error (noProjectsMsg root_dir) := by
  simp [mainModel, discover_runnables, discoverProjects, h1, h2]

/-- Witness for C4 on a manifest-free tree. -/
theorem c4_no_projects_aborts_witness :
    (noProjectTree.manifest = false)
    ∧ (find_rust_projects_recursive ["r".toList] noProjectTree = [])
    ∧ mainModel ["r".toList] noProjectTree dupMeta DiskState.absent
        = Except.error (noProjectsMsg ["r".toList]) :=
  ⟨rfl, rfl, c4_no_projects_aborts ["r".toList] noProjectTree dupMeta DiskState.absent rfl rfl⟩

/-- C10: when discovery succeeds but the runnable list is empty (for
example, every metadata query failed), the run terminates successfully
without writing a workspace document and without making a backup. -/
theorem c10_no_runnables_no_write (root_dir : FsPath) (tree : FsTree)
    (metaOf : FsPath → Option Metadata) (disk : DiskState)
    (h : discover_runnables root_dir tree metaOf = Except.ok []) :
    mainModel root_dir tree metaOf disk = Except.ok (none, false) := by
  unfold mainModel
  rw [h]
  rfl

/-- Witness for C10: a root-level project whose metadata query fails. -/
theorem c10_no_runnables_no_write_witness :
    (discover_runnables [] (FsTree.node true FsForest.nil) (fun _ => none) = Except.ok [])
    ∧ mainModel [] (FsTree.node true FsForest.nil) (fun _ => none) DiskState.absent
        = Except.ok (none, false) :=
  ⟨rfl, c10_no_runnables_no_write [] (FsTree.node true FsForest.nil) (fun _ => none)
    DiskState.absent rfl⟩

theorem visitedForest_shape : ∀ (cs : FsForest), ∀ q ∈ visitedForest cs,
    ∃ n q', q = n :: q' ∧ forestHasName cs n = true
  | FsForest.nil => by
    intro q hq
    simp [visitedForest] at hq
  | FsForest.cons name tree rest => by
    intro q hq
    simp only [visitedForest] at hq
    rcases List.mem_append.mp hq with h1 | h2
    · by_cases hskip : skipName name
      · rw [if_pos hskip] at h1
        simp at h1
      · rw [if_neg hskip] at h1
        obtain ⟨q', _hq', rfl⟩ := List.mem_map.mp h1
        exact ⟨name, q', rfl, by simp [forestHasName]⟩
    · obtain ⟨n, q', rfl, hname⟩ := visitedForest_shape rest q h2
      exact ⟨n, q', rfl, by simp [forestHasName, hname]⟩

theorem wfForest_cons {name : Str} {tree : FsTree} {rest : FsForest}
    (hwf : wfForest (FsForest.cons name tree rest) = true) :
    forestHasName rest name = false ∧ wfTree tree = true ∧ wfForest rest = true := by
  simp only [wfForest, Bool.and_eq_true, Bool.not_eq_true'] at hwf
  exact ⟨hwf.1.1, hwf.1.2, hwf.2⟩

mutual

theorem noDescend_tree : ∀ (t : FsTree), wfTree t = true →
    ∀ q ∈ visitedRel t, ∀ s, s <+: q → s ≠ q →
      ∃ u, subtreeAt t s = some u ∧ u.manifest = false
  | FsTree.node true children => by
    intro _hwf q hq s hpre hne
    simp [visitedRel] at hq
    subst hq
    exact absurd (List.prefix_nil.mp hpre) hne
  | FsTree.node false children => by
    intro hwf q hq s hpre hne
    have hwf' : wfForest children = true := hwf
    simp only [visitedRel] at hq
    rcases List.mem_cons.mp hq with rfl | hq2
    · exact absurd (List.prefix_nil.mp hpre) hne
    · cases s with
      | nil => exact ⟨FsTree.node false children, rfl, rfl⟩
      | cons n s' =>
        exact noDescend_forest children hwf' q hq2 (n :: s') hpre hne (by simp)

theorem noDescend_forest : ∀ (cs : FsForest), wfForest cs = true →
    ∀ q ∈ visitedForest cs, ∀ s, s <+: q → s ≠ q → s ≠ [] →
      ∃ u, subtreeForestAt cs s = some u ∧ u.manifest = false
  | FsForest.nil => by
    intro _hwf q hq
    simp [visitedForest] at hq
  | FsForest.cons name tree rest => by
    intro hwf q hq s hpre hne hsnil
    obtain ⟨hw1, hw2, hw3⟩ := wfForest_cons hwf
    simp only [visitedForest] at hq
    rcases List.mem_append.mp hq with h1 | h2
    · by_cases hskip : skipName name
      · rw [if_pos hskip] at h1
        simp at h1
      · rw [if_neg hskip] at h1
        obtain ⟨q', hq', rfl⟩ := List.mem_map.mp h1
        cases s with
        | nil => exact absurd rfl hsnil
        | cons n s' =>
          rw [List.cons_prefix_cons] at hpre
          obtain ⟨rfl, hpre'⟩ := hpre
          have hne' : s' ≠ q' := by
            intro hcon
            apply hne
            rw [hcon]
          have hlk : lookupForest (FsForest.cons n tree rest) n = some tree := by
            simp [lookupForest]
          obtain ⟨u, hu, hm⟩ := noDescend_tree tree hw2 q' hq' s' hpre' hne'
          refine ⟨u, ?_, hm⟩
          simp [subtreeForestAt, hlk, hu]
    · obtain ⟨n', q'', rfl, hname⟩ := visitedForest_shape rest q h2
      cases s with
      | nil => exact absurd rfl hsnil
      | cons n s' =>
        rw [List.cons_prefix_cons] at hpre
        obtain ⟨rfl, hpre'⟩ := hpre
        have hnn : ¬(name = n) := by
          intro hcon
          rw [hcon] at hw1
          rw [hw1] at hname
          exact Bool.noConfusion hname
        have hred : subtreeForestAt (FsForest.cons name tree rest) (n :: s')
            = subtreeForestAt rest (n :: s') := by
          simp [subtreeForestAt, lookupForest, hnn]
        rw [hred]
        exact noDescend_forest rest hw3 (n :: q'') h2 (n :: s')
          (List.cons_prefix_cons.mpr ⟨rfl, hpre'⟩) hne hsnil

end

mutual

theorem recorded_tree : ∀ (t : FsTree), wfTree t = true →
    ∀ q ∈ visitedRel t, ∀ u, subtreeAt t q = some u → u.manifest = true →
      ∀ dir, dir ++ q ∈ find_rust_projects_recursive dir t
  | FsTree.node true children => by
    intro _hwf q hq u _hsub _hman dir
    simp [visitedRel] at hq
    subst hq
    simp [find_rust_projects_recursive]
  | FsTree.node false children => by
    intro hwf q hq u hsub hman dir
    have hwf' : wfForest children = true := hwf
    simp only [visitedRel] at hq
    rcases List.mem_cons.mp hq with rfl | hq2
    · simp only [subtreeAt, Option.some.injEq] at hsub
      rw [← hsub] at hman
      exact Bool.noConfusion hman
    · obtain ⟨n, q', rfl, _⟩ := visitedForest_shape children _ hq2
      have hsub' : subtreeForestAt children (n :: q') = some u := hsub
      exact recorded_forest children hwf' (n :: q') hq2 u hsub' hman dir

theorem recorded_forest : ∀ (cs : FsForest), wfForest cs = true →
    ∀ q ∈ visitedForest cs, ∀ u, subtreeForestAt cs q = some u → u.manifest = true →
      ∀ dir, dir ++ q ∈ findInForest dir cs
  | FsForest.nil => by
    intro _hwf q hq
    simp [visitedForest] at hq
  | FsForest.cons name tree rest => by
    intro hwf q hq u hsub hman dir
    obtain ⟨hw1, hw2, hw3⟩ := wfForest_cons hwf
    simp only [visitedForest] at hq
    rcases List.mem_append.mp hq with h1 | h2
    · by_cases hskip : skipName name
      · rw [if_pos hskip] at h1
        simp at h1
      · rw [if_neg hskip] at h1
        obtain ⟨q', hq', rfl⟩ := List.mem_map.mp h1
        have hlk : lookupForest (FsForest.cons name tree rest) name = some tree := by
          simp [lookupForest]
        have hsub' : subtreeAt tree q' = some u := by
          simpa [subtreeForestAt, hlk] using hsub
        have hmem := recorded_tree tree hw2 q' hq' u hsub' hman (dir ++ [name])
        simp only [findInForest]
        rw [if_neg hskip]
        apply List.mem_append.mpr
        left
        have hsplit : dir ++ name :: q' = (dir ++ [name]) ++ q' := by simp
        rw [hsplit]
        exact hmem
    · obtain ⟨n', q'', rfl, hname⟩ := visitedForest_shape rest q h2
      have hnn : ¬(name = n') := by
        intro hcon
        rw [hcon] at hw1
        rw [hw1] at hname
        exact Bool.noConfusion hname
      have hsub' : subtreeForestAt rest (n' :: q'') = some u := by
        simpa [subtreeForestAt, lookupForest, hnn] using hsub
      have hmem := recorded_forest rest hw3 (n' :: q'') h2 u hsub' hman dir
      simp only [findInForest]
      apply List.mem_append.mpr
      right
      exact hmem

end

/-- C7: on every well-formed directory tree (distinct sibling names, as on a
real file system) the walk never descends into a subdirectory of a
directory that itself contains a manifest: every strict ancestor of a
visited directory is manifest-free; no visited directory strictly below a
manifest directory exists; a visited directory containing a manifest is
recorded as a project root; and when the scan root itself contains a
manifest it is the sole project and no recursion happens at all. -/
theorem c7_walk_stops_at_projects (tree : FsTree) (hwf : wfTree tree = true) :
    (∀ q ∈ visitedRel tree, ∀ s, s <+: q → s ≠ q →
        ∃ u, subtreeAt tree s = some u ∧ u.manifest = false)
    ∧ (∀ s u, subtreeAt tree s = some u → u.manifest = true →
        ∀ q ∈ visitedRel tree, ¬(s <+: q ∧ s ≠ q))
    ∧ (∀ q ∈ visitedRel tree, ∀ u, subtreeAt tree q = some u → u.manifest = true →
        ∀ dir, dir ++ q ∈ find_rust_projects_recursive dir tree)
    ∧ (tree.manifest = true →
        ∀ root_dir, discoverProjects root_dir tree = Except.ok [root_dir]
          ∧ visitedRel tree = [[]]) := by
  refine ⟨noDescend_tree tree hwf, ?_, recorded_tree tree hwf, ?_⟩
  · rintro s u hsub hman q hq ⟨hpre, hne⟩
    obtain ⟨u', hsub', hm'⟩ := noDescend_tree tree hwf q hq s hpre hne
    rw [hsub] at hsub'
    injection hsub' with he
    rw [← he] at hm'
    rw [hman] at hm'
    exact Bool.noConfusion hm'
  · intro hman root_dir
    cases tree with
    | node m children =>
      have hm : m = true := hman
      subst hm
      exact ⟨by simp [discoverProjects, FsTree.manifest], rfl⟩

/-- Witness for C7 on a tree with one project directory `a` below the root. -/
theorem c7_walk_stops_at_projects_witness :
    (wfTree nestedTree = true)
    ∧ (["a".toList] ∈ visitedRel nestedTree)
    ∧ (∃ u, subtreeAt nestedTree [] = some u ∧ u.manifest = false) :=
  ⟨rfl, by decide,
   (c7_walk_stops_at_projects nestedTree rfl).1 ["a".toList] (by decide) []
     List.nil_prefix (by decide)⟩

/-- C8 (amended): the `{package}::{target}` namespacing (with an
`" (example)"` suffix for examples) is injective — two runnables of the
same kind receive the same display name only when they agree on package and
bare target name, and a binary name never equals an example name when
target names do not themselves end in `" (example)"` — and the generator
maps runnables to launch entries one-to-one without deduplicating.  The
original claim's global uniqueness is false: distinct discovered projects
exposing the same package/target pair yield colliding display names (see
the counterexample). -/
theorem c8_display_name_injective (p₁ t₁ p₂ t₂ : Str)
    (hp₁ : ':' ∉ p₁) (ht₁ : ':' ∉ t₁) (hp₂ : ':' ∉ p₂) (ht₂ : ':' ∉ t₂)
    (hx₁ : ¬(" (example)".toList <:+ t₁)) :
    (binaryDisplayName p₁ t₁ = binaryDisplayName p₂ t₂ ↔ (p₁ = p₂ ∧ t₁ = t₂))
    ∧ (exampleDisplayName p₁ t₁ = exampleDisplayName p₂ t₂ ↔ (p₁ = p₂ ∧ t₁ = t₂))
    ∧ binaryDisplayName p₁ t₁ ≠ exampleDisplayName p₂ t₂
    ∧ (∀ runnables root_dir,
        (generate_launch_config runnables root_dir).configurations.length
          = runnables.length) := by
  have hex₁ : ':' ∉ t₁ ++ " (example)".toList := by
    intro hm
    rcases List.mem_append.mp hm with hmm | hmm
    · exact ht₁ hmm
    · revert hmm
      decide
  have hex₂ : ':' ∉ t₂ ++ " (example)".toList := by
    intro hm
    rcases List.mem_append.mp hm with hmm | hmm
    · exact ht₂ hmm
    · revert hmm
      decide
  refine ⟨?_, ?_, ?_, ?_⟩
  · constructor
    · intro h
      unfold binaryDisplayName at h
      have h' := congrArg splitCC h
      rw [splitCC_binary_pair p₁ t₁ hp₁ ht₁, splitCC_binary_pair p₂ t₂ hp₂ ht₂] at h'
      simpa using h'
    · rintro ⟨rfl, rfl⟩
      rfl
  · constructor
    · intro h
      unfold exampleDisplayName at h
      rw [List.append_assoc (p₁ ++ "::".toList), List.append_assoc (p₂ ++ "::".toList)] at h
      have h' := congrArg splitCC h
      rw [splitCC_binary_pair p₁ _ hp₁ hex₁, splitCC_binary_pair p₂ _ hp₂ hex₂] at h'
      simp only [List.cons.injEq, and_true] at h'
      exact ⟨h'.1, List.append_cancel_right h'.2⟩
    · rintro ⟨rfl, rfl⟩
      rfl
  · intro h
    unfold binaryDisplayName exampleDisplayName at h
    rw [List.append_assoc (p₂ ++ "::".toList)] at h
    have h' := congrArg splitCC h
    rw [splitCC_binary_pair p₁ t₁ hp₁ ht₁, splitCC_binary_pair p₂ _ hp₂ hex₂] at h'
    simp only [List.cons.injEq, and_true] at h'
    exact hx₁ (h'.2 ▸ List.suffix_append t₂ (" (example)".toList))
  · intro runnables root_dir
    simp [generate_launch_config]

/-- C8 counterexample: two sibling project roots `a` and `b` whose metadata
both report package `demo` with binary target `demo` — one run produces two
runnables with the identical display name `demo::demo`. -/
theorem c8_counterexample :
    discover_runnables [] dupTree dupMeta = Except.ok dupRunnables
    ∧ ¬(dupRunnables.map (fun r => r.name)).Nodup :=
  ⟨rfl, by decide⟩

/-- Witness for C8 at packages `demo`/`util` and targets `main`/`serve`. -/
theorem c8_display_name_injective_witness :
    (':' ∉ "demo".toList) ∧ (¬(" (example)".toList <:+ "main".toList))
    ∧ (binaryDisplayName "demo".toList "main".toList
        = binaryDisplayName "util".toList "serve".toList
          ↔ ("demo".toList = "util".toList ∧ "main".toList = "serve".toList))
    ∧ binaryDisplayName "demo".toList "main".toList
        ≠ exampleDisplayName "util".toList "serve".toList :=
  ⟨by decide, by decide,
   (c8_display_name_injective "demo".toList "main".toList "util".toList "serve".toList
     (by decide) (by decide) (by decide) (by decide) (by decide)).1,
   (c8_display_name_injective "demo".toList "main".toList "util".toList "serve".toList
     (by decide) (by decide) (by decide) (by decide) (by decide)).2.2.1⟩

end WorkspaceConfigurator
